import Mathlib

/-!
Shallow embedding of the single-file Go program in `src/main.go`:
a byte-level tokenizer (`Lexer.Lex` with `readNumber`, `readIdentifier`,
`readSymbol`) and a recursive-descent parser/evaluator (`Parser.Parse`,
`statement`, `assignmentStatement`, `expression`, `term`, `factor`).

Modelling decisions, each tied to the corresponding Go construct:

* A Go string is a byte sequence, and the program indexes it byte by byte
  (`l.input[l.pos]` followed by `rune(...)`, which converts the single byte
  to the code point of equal value, always below 256).  We therefore model
  the input as `List Nat`, each element one byte.
* `unicode.IsSpace`, `unicode.IsDigit`, `unicode.IsLetter` are evaluated
  only at code points below 256; we transcribe Go's Unicode tables on the
  Latin-1 range (`goIsSpace`, `goIsDigit`, `goIsLetter`).
* The parser's numeric values are Go `float64`.  The reachable arithmetic
  in this program is limited to `strconv.ParseFloat` results (the
  `expression`/`term` accumulation loops test for a token kind the scanner
  never emits), and every numeric value exercised below is a small integer,
  exactly representable in `float64`; we model values as `ℚ`, where the two
  semantics agree on everything stated here.
* The outer `Parse` loop can genuinely diverge (its error path does not
  advance the cursor), so it is modelled with explicit fuel returning
  `Option`: `none` means "has not terminated within the given fuel".
  `parsePrints` exposes the output prefix emitted in the first `fuel`
  iterations even when the loop diverges.
-/

namespace LexGo

/-- Token kinds, in the declaration order of the Go `TokenKind` constants
(`TokenInvalid` is `iota` = 0 and is also the zero value `Token{}.Kind`). -/
inductive TokenKind where
  | invalid
  | number
  | identifier
  | operator
  | punctuation
  | keyword
deriving DecidableEq, Repr

/-- A token: kind plus the exact source text (as bytes), Go `Token`. -/
structure Token where
  kind : TokenKind
  value : List Nat
deriving DecidableEq, Repr

/-- Go `unicode.IsSpace` restricted to code points below 256: tab, newline,
vertical tab, form feed, carriage return, space, next line (U+0085) and
no-break space (U+00A0). -/
def goIsSpace (c : Nat) : Bool :=
  c == 9 || c == 10 || c == 11 || c == 12 || c == 13 || c == 32 || c == 133 || c == 160

/-- Go `unicode.IsDigit` restricted to code points below 256: only the ASCII
decimal digits are in category Nd there. -/
def goIsDigit (c : Nat) : Bool :=
  48 ≤ c && c ≤ 57

/-- Go `unicode.IsLetter` restricted to code points below 256: ASCII letters
plus the Latin-1 letters ª (170), µ (181), º (186), À–Ö (192–214),
Ø–ö (216–246), ø–ÿ (248–255). -/
def goIsLetter (c : Nat) : Bool :=
  (65 ≤ c && c ≤ 90) || (97 ≤ c && c ≤ 122) || c == 170 || c == 181 || c == 186 ||
    (192 ≤ c && c ≤ 214) || (216 ≤ c && c ≤ 246) || (248 ≤ c && c ≤ 255)

/-- Loop condition of Go `readNumber`: digit or the dot (46). -/
def numChar (c : Nat) : Bool :=
  goIsDigit c || c == 46

/-- Loop condition of Go `readIdentifier`: letter, digit, or underscore (95). -/
def identChar (c : Nat) : Bool :=
  goIsLetter c || goIsDigit c || c == 95

/-- The recognized single-byte symbols of Go `readSymbol`:
`+ - * / ( ) { } = ;` (bytes 43 45 42 47 40 41 123 125 61 59). -/
def symbolChar (c : Nat) : Bool :=
  c == 43 || c == 45 || c == 42 || c == 47 || c == 40 || c == 41 ||
    c == 123 || c == 125 || c == 61 || c == 59

/-- Dropping a while-prefix never lengthens a list (termination helper). -/
theorem length_dropWhile_le (p : Nat → Bool) (l : List Nat) :
    (l.dropWhile p).length ≤ l.length :=
  (List.dropWhile_sublist _).length_le

/-- Go `Lexer.Lex`, fused with `readNumber`, `readIdentifier`, `readSymbol`
and `emitToken`.  Each loop iteration looks at the byte at the cursor:
whitespace is skipped; a digit starts a maximal `numChar` run emitted as a
`number` token; a letter starts a maximal `identChar` run emitted as an
`identifier` token; a recognized symbol is emitted alone as a `punctuation`
token; any other byte is consumed without emitting a token. -/
def Lex : List Nat → List Token
  | [] => []
  | c :: cs =>
    if goIsSpace c then
      Lex cs
    else if goIsDigit c then
      { kind := TokenKind.number, value := c :: cs.takeWhile numChar } :: Lex (cs.dropWhile numChar)
    else if goIsLetter c then
      { kind := TokenKind.identifier, value := c :: cs.takeWhile identChar } ::
        Lex (cs.dropWhile identChar)
    else if symbolChar c then
      { kind := TokenKind.punctuation, value := [c] } :: Lex cs
    else
      Lex cs
termination_by l => l.length
decreasing_by
  · simp
  · simpa using Nat.lt_succ_of_le (length_dropWhile_le numChar cs)
  · simpa using Nat.lt_succ_of_le (length_dropWhile_le identChar cs)
  · simp
  · simp

/-- ASCII byte list of a Lean string literal (all literals used here are
pure ASCII, where Lean character codes and Go bytes coincide). -/
def asciiBytes (s : String) : List Nat :=
  s.data.map Char.toNat

/-- The Go zero value `Token{}`: kind `TokenInvalid`, empty text. -/
def invalidToken : Token :=
  { kind := TokenKind.invalid, value := [] }

/-- Go `Parser`: the token sequence, the current token, and the cursor
position (`pos` is the index of the token after `current`, as in Go). -/
structure PState where
  tokens : List Token
  current : Token
  pos : Nat
deriving DecidableEq, Repr

/-- Go `NewParser`: cursor at 0, `current` the zero value `Token{}`. -/
def NewParser (ts : List Token) : PState :=
  { tokens := ts, current := invalidToken, pos := 0 }

/-- Go `Parser.advance`: load the token at `pos` and step `pos`, or set the
`TokenInvalid` sentinel once the sequence is exhausted (`pos` unchanged). -/
def advance (st : PState) : PState :=
  if h : st.pos < st.tokens.length then
    { st with current := st.tokens[st.pos], pos := st.pos + 1 }
  else
    { st with current := { kind := TokenKind.invalid, value := [] } }

/-- One printed line of Go `Parser.error`: `Parse error: <message>`. -/
def errLine (msg : String) : List Nat :=
  asciiBytes ("Parse error: " ++ msg)

/-- Value of a big-endian list of ASCII digit bytes. -/
def digitsVal (s : List Nat) : Nat :=
  s.foldl (fun a c => 10 * a + (c - 48)) 0

/-- Model of `strconv.ParseFloat(text, 64)` with the error discarded, as the
Go `factor` does (`result, _ = strconv.ParseFloat(...)`).  The texts reaching
it are `number` tokens: nonempty runs of decimal digits and dots starting
with a digit.  On that domain Go's float syntax accepts the text exactly
when it has at most one dot (and at least one digit), returning the nearest
`float64` to its decimal value, and returns 0 on a syntax error.  We return
the exact decimal value as a rational; every value exercised in the theorems
below is a small integer, where the two agree. -/
def parseFloatGo (s : List Nat) : ℚ :=
  if s.all numChar ∧ s.count 46 ≤ 1 ∧ s.any goIsDigit then
    let ip := s.takeWhile (fun c => c != 46)
    let fp := (s.dropWhile (fun c => c != 46)).drop 1
    (digitsVal ip : ℚ) + (digitsVal fp : ℚ) / (10 : ℚ) ^ fp.length
  else
    0

/-- Decimal digits of a natural number as ASCII bytes, most significant
first. -/
def natDigits (n : Nat) : List Nat :=
  if h : n < 10 then
    [48 + n]
  else
    natDigits (n / 10) ++ [48 + n % 10]
termination_by n
decreasing_by
  exact Nat.div_lt_self (by omega) (by omega)

/-- Model of Go `fmt.Printf` verb `%f` (six fractional digits) applied to
the values arising here.  `%f` prints the value rounded to six decimal
places; every value printed in the theorems below is an integer, where no
rounding occurs and this is the exact fixed-point rendering. -/
def fmtFixed6 (q : ℚ) : List Nat :=
  let m : ℤ := round (q * 1000000)
  let sign : List Nat := if m < 0 then [45] else []
  sign ++ natDigits (m.natAbs / 1000000) ++ 46 :: (List.replicate (6 - (natDigits (m.natAbs % 1000000)).length) 48 ++ natDigits (m.natAbs % 1000000))

/-- Go `Parser.factor`: a `number` token is parsed as a float (parse errors
ignored, leaving the zero value) and consumed; an `identifier` token reports
`Variable not supported` without advancing; anything else reports
`Invalid expression` without advancing.  The Go local `result` starts at the
zero value 0 and is only assigned in the number branch.  Returns the value,
the new state, and the printed lines in order. -/
def factor (st : PState) : ℚ × PState × List (List Nat) :=
  if st.current.kind = TokenKind.number then
    (parseFloatGo st.current.value, advance st, [])
  else if st.current.kind = TokenKind.identifier then
    (0, st, [errLine "Variable not supported"])
  else
    (0, st, [errLine "Invalid expression"])

/-- Advancing never changes the token sequence. -/
theorem advance_tokens (st : PState) : (advance st).tokens = st.tokens := by
  unfold advance
  split <;> rfl

/-- Advancing never moves the cursor backwards. -/
theorem advance_pos_le (st : PState) : st.pos ≤ (advance st).pos := by
  unfold advance
  split <;> simp

/-- Advancing within the sequence steps the cursor by one. -/
theorem advance_pos_of_lt (st : PState) (h : st.pos < st.tokens.length) :
    (advance st).pos = st.pos + 1 := by
  unfold advance
  rw [dif_pos h]

/-- Advancing at the end of the sequence only installs the sentinel. -/
theorem advance_of_ge (st : PState) (h : ¬ st.pos < st.tokens.length) :
    advance st = { st with current := { kind := TokenKind.invalid, value := [] } } := by
  unfold advance
  rw [dif_neg h]

/-- Evaluating a factor never changes the token sequence. -/
theorem factor_tokens (st : PState) : (factor st).2.1.tokens = st.tokens := by
  by_cases h1 : st.current.kind = TokenKind.number
  · simp [factor, h1, advance_tokens]
  · by_cases h2 : st.current.kind = TokenKind.identifier
    · simp [factor, h1, h2]
    · simp [factor, h1, h2]

/-- Evaluating a factor never moves the cursor backwards. -/
theorem factor_pos_le (st : PState) : st.pos ≤ (factor st).2.1.pos := by
  by_cases h1 : st.current.kind = TokenKind.number
  · simp [factor, h1, advance_pos_le]
  · by_cases h2 : st.current.kind = TokenKind.identifier
    · simp [factor, h1, h2]
    · simp [factor, h1, h2]

/-- Evaluating a factor at the sentinel reports `Invalid expression` and
stays put. -/
theorem factor_of_invalid (st : PState) (h : st.current.kind = TokenKind.invalid) :
    factor st = (0, st, [errLine "Invalid expression"]) := by
  simp [factor, h]

/-- Indicator used in the termination measure of the operator loops. -/
def opFlag (t : Token) : Nat :=
  if t.kind = TokenKind.operator then 1 else 0

/-- The `switch operator` of Go `Parser.term`: under the loop guard the
operator text is `*` (42), which multiplies, or `/` (47), which divides. -/
def termStep (t : Token) (acc v : ℚ) : ℚ :=
  if t.value = [42] then acc * v else acc / v

/-- The Go `for` loop of Go `Parser.term`: while the current token has kind
`TokenOperator` and text `*` (42) or `/` (47), remember the operator text,
advance past it, evaluate the next `factor`, and combine via `termStep`.
Expressed as the standard tail-recursive reading of the while loop; `acc` is
the Go local `result` and `out` accumulates the printed lines in order.
(The guard's token kind is never produced by `Lex`, so on scanner output the
loop exits immediately.) -/
def termLoop (st : PState) (acc : ℚ) (out : List (List Nat)) :
    ℚ × PState × List (List Nat) :=
  if h : st.current.kind = TokenKind.operator ∧
      (st.current.value = [42] ∨ st.current.value = [47]) then
    termLoop (factor (advance st)).2.1
      (termStep st.current acc (factor (advance st)).1)
      (out ++ (factor (advance st)).2.2)
  else
    (acc, st, out)
termination_by 2 * (st.tokens.length + 1 - st.pos) + opFlag st.current
decreasing_by
  by_cases hlt : st.pos < st.tokens.length
  · have hL : (factor (advance st)).2.1.tokens.length = st.tokens.length := by
      rw [factor_tokens, advance_tokens]
    have hP : st.pos + 1 ≤ (factor (advance st)).2.1.pos := by
      have h1 := factor_pos_le (advance st)
      rw [advance_pos_of_lt st hlt] at h1
      exact h1
    have hflag : opFlag (factor (advance st)).2.1.current ≤ 1 := by
      unfold opFlag
      split <;> omega
    omega
  · have hadv := advance_of_ge st hlt
    have hfac : factor (advance st) = (0, advance st, [errLine "Invalid expression"]) := by
      apply factor_of_invalid
      rw [hadv]
    have hst : (factor (advance st)).2.1 = advance st := by rw [hfac]
    have hL : (factor (advance st)).2.1.tokens.length = st.tokens.length := by
      rw [hst, advance_tokens]
    have hP : (factor (advance st)).2.1.pos = st.pos := by
      rw [hst, hadv]
    have hflag : opFlag (factor (advance st)).2.1.current = 0 := by
      rw [hst, hadv]
      simp [opFlag]
    have hop : opFlag st.current = 1 := by
      simp [opFlag, h.1]
    omega

/-- The term loop never changes the token sequence. -/
theorem termLoop_tokens (st : PState) (acc : ℚ) (out : List (List Nat)) :
    (termLoop st acc out).2.1.tokens = st.tokens := by
  induction st, acc, out using termLoop.induct with
  | case1 st acc out h ih =>
    rw [termLoop, dif_pos h]
    rw [ih, factor_tokens, advance_tokens]
  | case2 st acc out h =>
    rw [termLoop, dif_neg h]

/-- The term loop never moves the cursor backwards. -/
theorem termLoop_pos_le (st : PState) (acc : ℚ) (out : List (List Nat)) :
    st.pos ≤ (termLoop st acc out).2.1.pos := by
  induction st, acc, out using termLoop.induct with
  | case1 st acc out h ih =>
    rw [termLoop, dif_pos h]
    calc st.pos ≤ (advance st).pos := advance_pos_le st
    _ ≤ (factor (advance st)).2.1.pos := factor_pos_le _
    _ ≤ _ := ih
  | case2 st acc out h =>
    rw [termLoop, dif_neg h]

/-- The term loop does not run when the current token is not an operator. -/
theorem termLoop_of_not_operator (st : PState) (acc : ℚ) (out : List (List Nat))
    (h : st.current.kind ≠ TokenKind.operator) :
    termLoop st acc out = (acc, st, out) := by
  rw [termLoop, dif_neg]
  intro hc
  exact h hc.1

/-- Go `Parser.term`: evaluate a `factor`, then run the `*`/`/` loop. -/
def term (st : PState) : ℚ × PState × List (List Nat) :=
  termLoop (factor st).2.1 (factor st).1 (factor st).2.2

/-- Evaluating a term never changes the token sequence. -/
theorem term_tokens (st : PState) : (term st).2.1.tokens = st.tokens := by
  unfold term
  rw [termLoop_tokens, factor_tokens]

/-- Evaluating a term never moves the cursor backwards. -/
theorem term_pos_le (st : PState) : st.pos ≤ (term st).2.1.pos := by
  unfold term
  calc st.pos ≤ (factor st).2.1.pos := factor_pos_le st
  _ ≤ _ := termLoop_pos_le _ _ _

/-- Evaluating a term at the sentinel reports `Invalid expression` and
stays put. -/
theorem term_of_invalid (st : PState) (h : st.current.kind = TokenKind.invalid) :
    term st = (0, st, [errLine "Invalid expression"]) := by
  unfold term
  rw [factor_of_invalid st h]
  exact termLoop_of_not_operator st 0 _ (by rw [h]; decide)

/-- The `switch operator` of Go `Parser.expression`: under the loop guard
the operator text is `+` (43), which adds, or `-` (45), which subtracts. -/
def exprStep (t : Token) (acc v : ℚ) : ℚ :=
  if t.value = [43] then acc + v else acc - v

/-- The Go `for` loop of Go `Parser.expression`: while the current token has
kind `TokenOperator` and text `+` (43) or `-` (45), remember the operator
text, advance past it, evaluate the next `term`, and combine via `exprStep`.
Same tail-recursive reading as `termLoop`.  (Never entered on scanner
output.) -/
def exprLoop (st : PState) (acc : ℚ) (out : List (List Nat)) :
    ℚ × PState × List (List Nat) :=
  if h : st.current.kind = TokenKind.operator ∧
      (st.current.value = [43] ∨ st.current.value = [45]) then
    exprLoop (term (advance st)).2.1
      (exprStep st.current acc (term (advance st)).1)
      (out ++ (term (advance st)).2.2)
  else
    (acc, st, out)
termination_by 2 * (st.tokens.length + 1 - st.pos) + opFlag st.current
decreasing_by
  by_cases hlt : st.pos < st.tokens.length
  · have hL : (term (advance st)).2.1.tokens.length = st.tokens.length := by
      rw [term_tokens, advance_tokens]
    have hP : st.pos + 1 ≤ (term (advance st)).2.1.pos := by
      have h1 := term_pos_le (advance st)
      rw [advance_pos_of_lt st hlt] at h1
      exact h1
    have hflag : opFlag (term (advance st)).2.1.current ≤ 1 := by
      unfold opFlag
      split <;> omega
    omega
  · have hadv := advance_of_ge st hlt
    have hterm : term (advance st) = (0, advance st, [errLine "Invalid expression"]) := by
      apply term_of_invalid
      rw [hadv]
    have hst : (term (advance st)).2.1 = advance st := by rw [hterm]
    have hL : (term (advance st)).2.1.tokens.length = st.tokens.length := by
      rw [hst, advance_tokens]
    have hP : (term (advance st)).2.1.pos = st.pos := by
      rw [hst, hadv]
    have hflag : opFlag (term (advance st)).2.1.current = 0 := by
      rw [hst, hadv]
      simp [opFlag]
    have hop : opFlag st.current = 1 := by
      simp [opFlag, h.1]
    omega

/-- The expression loop does not run when the current token is not an
operator. -/
theorem exprLoop_of_not_operator (st : PState) (acc : ℚ) (out : List (List Nat))
    (h : st.current.kind ≠ TokenKind.operator) :
    exprLoop st acc out = (acc, st, out) := by
  rw [exprLoop, dif_neg]
  intro hc
  exact h hc.1

/-- Go `Parser.expression`: evaluate a `term`, then run the `+`/`-` loop. -/
def expression (st : PState) : ℚ × PState × List (List Nat) :=
  exprLoop (term st).2.1 (term st).1 (term st).2.2

/-- Go `Parser.assignmentStatement`: capture the identifier text, advance;
if the next token's text is not `=` (61) report `Expected` `=` and return;
otherwise advance past `=`, evaluate the expression, and print the binding
`Assign <identifier> = <value>` with the `%f` rendering of the value. -/
def assignmentStatement (st : PState) : PState × List (List Nat) :=
  if (advance st).current.value = [61] then
    ((expression (advance (advance st))).2.1,
      (expression (advance (advance st))).2.2 ++
        [asciiBytes "Assign " ++ st.current.value ++ asciiBytes " = " ++
          fmtFixed6 (expression (advance (advance st))).1])
  else
    (advance st, [errLine "Expected \x27=\x27"])

/-- Go `Parser.statement`: an `identifier` current token starts an
assignment statement; anything else reports `Unexpected token` and returns
without advancing. -/
def statement (st : PState) : PState × List (List Nat) :=
  if st.current.kind = TokenKind.identifier then
    assignmentStatement st
  else
    (st, [errLine "Unexpected token"])

/-- The loop of Go `Parser.Parse`, with explicit fuel: while the current
token is not the `TokenInvalid` sentinel, run one `statement`.  `none` means
the loop has not terminated within `fuel` iterations; `some lines` is the
complete printed output of a terminating run. -/
def parseRun : Nat → PState → Option (List (List Nat))
  | 0, _ => none
  | fuel + 1, st =>
    if st.current.kind = TokenKind.invalid then
      some []
    else
      match parseRun fuel (statement st).1 with
      | none => none
      | some rest => some ((statement st).2 ++ rest)

/-- The printed lines emitted by the first `fuel` iterations of the Go
`Parser.Parse` loop, defined even when the loop diverges. -/
def parsePrints : Nat → PState → List (List Nat)
  | 0, _ => []
  | fuel + 1, st =>
    if st.current.kind = TokenKind.invalid then
      []
    else
      (statement st).2 ++ parsePrints fuel (statement st).1

/-- Go `Parser.Parse` begins by advancing onto the first token. -/
def parseInit (ts : List Token) : PState :=
  advance (NewParser ts)

/-- The whole pipeline of Go `main` on one input line: lex the bytes, parse
with the given fuel; `some lines` is the full printed output of a
terminating run. -/
def Parse (input : List Nat) (fuel : Nat) : Option (List (List Nat)) :=
  parseRun fuel (parseInit (Lex input))

/-- Concatenation of the texts of a token sequence, in order. -/
def tokensText (ts : List Token) : List Nat :=
  ts.foldr (fun t acc => t.value ++ acc) []

/-- Unfolding lemma: the text of a consed token sequence. -/
theorem tokensText_cons (t : Token) (ts : List Token) :
    tokensText (t :: ts) = t.value ++ tokensText ts :=
  rfl

/-- A byte the scanner skips without emitting a token: whitespace, or a
byte that is not a digit, letter, or recognized symbol. -/
def skippedChar (c : Nat) : Bool :=
  goIsSpace c || (!goIsDigit c && !goIsLetter c && !symbolChar c)

/-- The spans of the given token texts occur inside `l` contiguously, in
order, pairwise non-overlapping; the material between and around them
consists only of skipped bytes; every text is non-empty and contains no
whitespace byte. -/
def LexCover : List Nat → List Token → Prop
  | l, [] => ∀ c ∈ l, skippedChar c = true
  | l, t :: ts =>
    ∃ g rest, l = g ++ t.value ++ rest ∧ (∀ c ∈ g, skippedChar c = true) ∧
      t.value ≠ [] ∧ (∀ c ∈ t.value, goIsSpace c = false) ∧ LexCover rest ts

/-- A byte in a number run is never whitespace. -/
theorem numChar_not_space (c : Nat) (h : numChar c = true) : goIsSpace c = false := by
  simp only [numChar, goIsDigit, Bool.or_eq_true, Bool.and_eq_true, decide_eq_true_eq,
    beq_iff_eq] at h
  simp only [goIsSpace, Bool.or_eq_false_iff, beq_eq_false_iff_ne, ne_eq]
  omega

/-- A byte in an identifier run is never whitespace. -/
theorem identChar_not_space (c : Nat) (h : identChar c = true) : goIsSpace c = false := by
  simp only [identChar, goIsLetter, goIsDigit, Bool.or_eq_true, Bool.and_eq_true,
    decide_eq_true_eq, beq_iff_eq] at h
  simp only [goIsSpace, Bool.or_eq_false_iff, beq_eq_false_iff_ne, ne_eq]
  omega

/-- A recognized symbol byte is never whitespace. -/
theorem symbolChar_not_space (c : Nat) (h : symbolChar c = true) : goIsSpace c = false := by
  simp only [symbolChar, Bool.or_eq_true, beq_iff_eq] at h
  simp only [goIsSpace, Bool.or_eq_false_iff, beq_eq_false_iff_ne, ne_eq]
  omega

/-- Prepending one skipped byte preserves a cover. -/
theorem LexCover_cons_skipped (c : Nat) (l : List Nat) (ts : List Token)
    (hc : skippedChar c = true) (h : LexCover l ts) : LexCover (c :: l) ts := by
  cases ts with
  | nil =>
    intro x hx
    rcases List.mem_cons.mp hx with rfl | hx
    · exact hc
    · exact h x hx
  | cons t ts =>
    obtain ⟨g, rest, hsplit, hg, hne, hnsp, hcov⟩ := h
    exact ⟨c :: g, rest, by rw [hsplit]; rfl,
      fun x hx => by
        rcases List.mem_cons.mp hx with rfl | hx
        · exact hc
        · exact hg x hx,
      hne, hnsp, hcov⟩

/-- Every token `Lex` emits has kind `number`, `identifier`, or
`punctuation`; in particular the scanner never emits `TokenOperator` (nor
`TokenKeyword`, nor the sentinel). -/
theorem lex_kinds (l : List Nat) :
    ∀ t ∈ Lex l, t.kind = TokenKind.number ∨ t.kind = TokenKind.identifier ∨
      t.kind = TokenKind.punctuation := by
  induction l using Lex.induct with
  | case1 =>
    intro t ht
    simp [Lex] at ht
  | case2 c cs hsp ih =>
    rw [Lex, if_pos hsp]
    exact ih
  | case3 c cs hsp hd ih =>
    rw [Lex, if_neg hsp, if_pos hd]
    intro t ht
    rcases List.mem_cons.mp ht with rfl | ht
    · left; rfl
    · exact ih t ht
  | case4 c cs hsp hd hl ih =>
    rw [Lex, if_neg hsp,
      if_neg hd, if_pos hl]
    intro t ht
    rcases List.mem_cons.mp ht with rfl | ht
    · right; left; rfl
    · exact ih t ht
  | case5 c cs hsp hd hl hsym ih =>
    rw [Lex, if_neg hsp,
      if_neg hd,
      if_neg hl, if_pos hsym]
    intro t ht
    rcases List.mem_cons.mp ht with rfl | ht
    · right; right; rfl
    · exact ih t ht
  | case6 c cs hsp hd hl hsym ih =>
    rw [Lex, if_neg hsp,
      if_neg hd,
      if_neg hl,
      if_neg hsym]
    exact ih

/-- C8: `tokenize` is total — `Lex` is a total function, so every input has
a token sequence — and any single byte that is not whitespace, not a digit,
not a letter, and not a recognized symbol is consumed (exactly one position)
producing no token; the input `"#"` alone yields no tokens. -/
theorem c8_unrecognized_consumed (c : Nat) (cs : List Nat)
    (hsp : goIsSpace c = false) (hd : goIsDigit c = false)
    (hl : goIsLetter c = false) (hsym : symbolChar c = false) :
    Lex (c :: cs) = Lex cs ∧ Lex (asciiBytes "#") = [] ∧
      ∀ l : List Nat, ∃ ts : List Token, Lex l = ts := by
  refine ⟨?_, ?_, fun l => ⟨Lex l, rfl⟩⟩
  · rw [Lex, if_neg (by simp [hsp]), if_neg (by simp [hd]), if_neg (by simp [hl]),
      if_neg (by simp [hsym])]
  · simp [Lex, asciiBytes, goIsSpace, goIsDigit, goIsLetter, symbolChar]

/-- Witness for C8 at the concrete byte 35 (`#`) followed by `"5"`. -/
theorem c8_witness : Lex (35 :: asciiBytes "5") = Lex (asciiBytes "5") :=
  (c8_unrecognized_consumed 35 (asciiBytes "5") rfl rfl rfl rfl).1

/-- C9: `tokenize` on `"12.5"` yields one `number` token with that text; on
`"x_1"` one `identifier` token with that text; on `"=+"` two `punctuation`
tokens `"="` then `"+"`. -/
theorem c9_examples :
    Lex (asciiBytes "12.5") = [{ kind := TokenKind.number, value := asciiBytes "12.5" }] ∧
      Lex (asciiBytes "x_1") =
        [{ kind := TokenKind.identifier, value := asciiBytes "x_1" }] ∧
      Lex (asciiBytes "=+") =
        [{ kind := TokenKind.punctuation, value := asciiBytes "=" },
         { kind := TokenKind.punctuation, value := asciiBytes "+" }] := by
  refine ⟨?_, ?_, ?_⟩ <;>
    simp [Lex, asciiBytes, goIsSpace, goIsDigit, goIsLetter, numChar, identChar, symbolChar]

/-- C10: the scanner classifies byte by byte: on the two-byte UTF-8 input
`é` (0xC3 0xA9 = 195 169) it emits one `identifier` token holding only the
single lead byte 195 (not a complete code point of the input), and the
trailing byte 169 produces no token. -/
theorem c10_byte_level_scanning :
    Lex [195, 169] = [{ kind := TokenKind.identifier, value := [195] }] ∧
      Lex [169] = [] := by
  constructor <;>
    simp [Lex, asciiBytes, goIsSpace, goIsDigit, goIsLetter, numChar, identChar, symbolChar]

/-- C3 as stated is false: the underscore byte 95 is in the claimed input
alphabet, but the input consisting of `_` alone produces no tokens, so the
concatenated token texts (empty) do not reconstruct the whitespace-free
input `[95]`. -/
theorem c3_counterexample :
    identChar 95 = true ∧ Lex [95] = [] ∧
      List.filter (fun c => !goIsSpace c) [95] = [95] ∧
      tokensText (Lex [95]) ≠ List.filter (fun c => !goIsSpace c) [95] := by
  refine ⟨rfl, ?_, rfl, ?_⟩ <;>
    simp [Lex, tokensText, goIsSpace, goIsDigit, goIsLetter, symbolChar]

/-- C3 amended: for every input composed only of whitespace, digits,
letters, and the recognized symbols (underscore excluded: a standalone
underscore is silently dropped, see the counterexample), concatenating the
emitted token texts in order reconstructs exactly the input with its
whitespace removed. -/
theorem c3_amended (l : List Nat)
    (h : ∀ c ∈ l, goIsSpace c = true ∨ goIsDigit c = true ∨ goIsLetter c = true ∨
      symbolChar c = true) :
    tokensText (Lex l) = l.filter (fun c => !goIsSpace c) := by
  induction l using Lex.induct with
  | case1 =>
    simp [Lex, tokensText]
  | case2 c cs hsp ih =>
    rw [Lex, if_pos hsp]
    rw [ih (fun x hx => h x (List.mem_cons_of_mem c hx))]
    simp [List.filter_cons, hsp]
  | case3 c cs hsp hd ih =>
    have hspf : goIsSpace c = false := by simpa using hsp
    rw [Lex, if_neg hsp, if_pos hd, tokensText_cons]
    have hsub : ∀ x ∈ cs.dropWhile numChar, x ∈ c :: cs :=
      fun x hx => List.mem_cons_of_mem c ((List.dropWhile_sublist numChar).subset hx)
    rw [ih (fun x hx => h x (hsub x hx))]
    have htake : (cs.takeWhile numChar).filter (fun x => !goIsSpace x) = cs.takeWhile numChar :=
      List.filter_eq_self.mpr fun x hx => by
        rw [numChar_not_space x (List.mem_takeWhile_imp hx)]
        rfl
    have hc : List.filter (fun x => !goIsSpace x) (c :: cs) =
        c :: List.filter (fun x => !goIsSpace x) cs := by
      simp [List.filter_cons, hspf]
    rw [List.cons_append, hc, ← htake, ← List.filter_append,
      List.takeWhile_append_dropWhile]
  | case4 c cs hsp hd hl ih =>
    have hspf : goIsSpace c = false := by simpa using hsp
    rw [Lex, if_neg hsp, if_neg hd, if_pos hl, tokensText_cons]
    have hsub : ∀ x ∈ cs.dropWhile identChar, x ∈ c :: cs :=
      fun x hx => List.mem_cons_of_mem c ((List.dropWhile_sublist identChar).subset hx)
    rw [ih (fun x hx => h x (hsub x hx))]
    have htake : (cs.takeWhile identChar).filter (fun x => !goIsSpace x) =
        cs.takeWhile identChar :=
      List.filter_eq_self.mpr fun x hx => by
        rw [identChar_not_space x (List.mem_takeWhile_imp hx)]
        rfl
    have hc : List.filter (fun x => !goIsSpace x) (c :: cs) =
        c :: List.filter (fun x => !goIsSpace x) cs := by
      simp [List.filter_cons, hspf]
    rw [List.cons_append, hc, ← htake, ← List.filter_append,
      List.takeWhile_append_dropWhile]
  | case5 c cs hsp hd hl hsym ih =>
    have hspf : goIsSpace c = false := by simpa using hsp
    rw [Lex, if_neg hsp, if_neg hd, if_neg hl, if_pos hsym, tokensText_cons]
    rw [ih (fun x hx => h x (List.mem_cons_of_mem c hx))]
    simp [List.filter_cons, hspf]
  | case6 c cs hsp hd hl hsym ih =>
    rcases h c (List.mem_cons_self c cs) with hc | hc | hc | hc
    · exact absurd hc hsp
    · exact absurd hc hd
    · exact absurd hc hl
    · exact absurd hc hsym

/-- Witness for C3 (amended) on the concrete input `"x = 3 + 4 * 2"`. -/
theorem c3_witness :
    tokensText (Lex (asciiBytes "x = 3 + 4 * 2")) =
      List.filter (fun c => !goIsSpace c) (asciiBytes "x = 3 + 4 * 2") :=
  c3_amended (asciiBytes "x = 3 + 4 * 2") (by decide)

/-- C7: for every input, the emitted token texts are non-empty, drawn
contiguously from the input, in input order and pairwise non-overlapping;
the only material between and around them is skipped bytes (whitespace or
unrecognized bytes), and no token text contains a whitespace byte. -/
theorem c7_token_spans (l : List Nat) : LexCover l (Lex l) := by
  induction l using Lex.induct with
  | case1 =>
    rw [Lex]
    intro c hc
    simp at hc
  | case2 c cs hsp ih =>
    rw [Lex, if_pos hsp]
    exact LexCover_cons_skipped c cs (Lex cs) (by simp [skippedChar, hsp]) ih
  | case3 c cs hsp hd ih =>
    rw [Lex, if_neg hsp, if_pos hd]
    refine ⟨[], cs.dropWhile numChar, ?_, ?_, ?_, ?_, ih⟩
    · simp [List.takeWhile_append_dropWhile]
    · intro x hx
      simp at hx
    · simp
    · intro x hx
      rcases List.mem_cons.mp hx with rfl | hx
      · exact numChar_not_space x (by simp [numChar, hd])
      · exact numChar_not_space x (List.mem_takeWhile_imp hx)
  | case4 c cs hsp hd hl ih =>
    rw [Lex, if_neg hsp, if_neg hd, if_pos hl]
    refine ⟨[], cs.dropWhile identChar, ?_, ?_, ?_, ?_, ih⟩
    · simp [List.takeWhile_append_dropWhile]
    · intro x hx
      simp at hx
    · simp
    · intro x hx
      rcases List.mem_cons.mp hx with rfl | hx
      · exact identChar_not_space x (by simp [identChar, hl])
      · exact identChar_not_space x (List.mem_takeWhile_imp hx)
  | case5 c cs hsp hd hl hsym ih =>
    rw [Lex, if_neg hsp, if_neg hd, if_neg hl, if_pos hsym]
    refine ⟨[], cs, rfl, ?_, ?_, ?_, ih⟩
    · intro x hx
      simp at hx
    · simp
    · intro x hx
      rcases List.mem_cons.mp hx with rfl | hx
      · exact symbolChar_not_space x hsym
      · simp at hx
  | case6 c cs hsp hd hl hsym ih =>
    rw [Lex, if_neg hsp, if_neg hd, if_neg hl, if_neg hsym]
    have hd' : goIsDigit c = false := by simpa using hd
    have hl' : goIsLetter c = false := by simpa using hl
    have hsym' : symbolChar c = false := by simpa using hsym
    exact LexCover_cons_skipped c cs (Lex cs) (by simp [skippedChar, hd', hl', hsym']) ih

/-- A terminating `parseRun` result is stable under extra fuel. -/
theorem parseRun_mono (f : Nat) :
    ∀ (g : Nat) (st : PState) (out : List (List Nat)), f ≤ g →
      parseRun f st = some out → parseRun g st = some out := by
  induction f with
  | zero =>
    intro g st out _ hrun
    exact absurd hrun (by simp [parseRun])
  | succ f ih =>
    intro g st out hle hrun
    cases g with
    | zero => omega
    | succ g =>
      rw [parseRun] at hrun ⊢
      by_cases hinv : st.current.kind = TokenKind.invalid
      · rw [if_pos hinv] at hrun ⊢
        exact hrun
      · rw [if_neg hinv] at hrun ⊢
        cases heq : parseRun f (statement st).1 with
        | none => rw [heq] at hrun; exact absurd hrun (by simp)
        | some rest =>
          rw [heq] at hrun
          rw [ih g (statement st).1 rest (by omega) heq]
          exact hrun

/-- Evaluation of the `%f` model at whole numbers: integer digits, a dot,
six zero fraction digits. -/
theorem fmtFixed6_natCast (n : ℕ) :
    fmtFixed6 (n : ℚ) = natDigits n ++ 46 :: List.replicate 6 48 := by
  have h1 : ((n : ℚ) * 1000000) = ((n * 1000000 : ℕ) : ℚ) := by push_cast; ring
  have h3 : ¬ ((n * 1000000 : ℕ) : ℤ) < 0 := not_lt.mpr (Int.natCast_nonneg _)
  have hdiv : n * 1000000 / 1000000 = n := by omega
  have hmod : n * 1000000 % 1000000 = 0 := by omega
  have h4 : natDigits 0 = [48] := by simp [natDigits]
  have h5 : List.replicate (6 - 1) 48 ++ [48] = List.replicate 6 48 := by decide
  simp only [fmtFixed6, h1, round_natCast, Int.natAbs_ofNat, if_neg h3, hdiv, hmod, h4,
    List.length_singleton, h5, List.nil_append]

/-- The `%f` model prints the value 3 as `3.000000`. -/
theorem fmtFixed6_three : fmtFixed6 (3 : ℚ) = asciiBytes "3.000000" := by
  rw [show (3 : ℚ) = ((3 : ℕ) : ℚ) by norm_num, fmtFixed6_natCast]
  simp [natDigits, asciiBytes]

/-- C1 as stated is false: on the input `"z = w"` the program does print
`Parse error: Variable not supported`, but it also prints an `Assign` line —
`factor` returns 0 for the unsupported variable without aborting the
assignment, so `assignmentStatement` still reports `Assign z = 0.000000`
(and the statement loop then reports `Expected` `=` at the leftover `w`). -/
theorem c1_counterexample :
    Parse (asciiBytes "z = w") 3 =
      some [errLine "Variable not supported",
            asciiBytes "Assign z = 0.000000",
            errLine "Expected \x27=\x27"] ∧
      asciiBytes "Assign z = 0.000000" ∈
        [errLine "Variable not supported",
         asciiBytes "Assign z = 0.000000",
         errLine "Expected \x27=\x27"] := by
  constructor
  · simp [Parse, parseRun, parseInit, NewParser, invalidToken, Lex, asciiBytes, goIsSpace,
      goIsDigit, goIsLetter, identChar, numChar, symbolChar, statement, assignmentStatement,
      advance, expression, term, factor, termLoop, exprLoop, errLine, fmtFixed6, natDigits,
      parseFloatGo, digitsVal]
  · simp

/-- C1 amended: on the input `"z = w"` the program terminates and prints
exactly three lines: `Parse error: Variable not supported`, then
`Assign z = 0.000000` (the unsupported variable evaluates to 0 and the
assignment is still reported), then `Parse error: Expected` `=` (the loop
re-enters at the unconsumed `w`). -/
theorem c1_amended (fuel : Nat) (h : 3 ≤ fuel) :
    Parse (asciiBytes "z = w") fuel =
      some [errLine "Variable not supported",
            asciiBytes "Assign z = 0.000000",
            errLine "Expected \x27=\x27"] := by
  unfold Parse
  apply parseRun_mono 3 fuel _ _ h
  simp [Parse, parseRun, parseInit, NewParser, invalidToken, Lex, asciiBytes, goIsSpace,
    goIsDigit, goIsLetter, identChar, numChar, symbolChar, statement, assignmentStatement,
    advance, expression, term, factor, termLoop, exprLoop, errLine, fmtFixed6, natDigits,
    parseFloatGo, digitsVal]

/-- Witness for C1 (amended) at the minimal sufficient fuel. -/
theorem c1_witness :
    Parse (asciiBytes "z = w") 3 =
      some [errLine "Variable not supported",
            asciiBytes "Assign z = 0.000000",
            errLine "Expected \x27=\x27"] :=
  c1_amended 3 (by decide)

set_option maxRecDepth 4096 in
/-- C2: on `"x = 3 + 4 * 2"` the scanner classifies `+` and `*` as
`punctuation` (not `operator`), so the expression/term operator loops never
fire: the one statement consumes only through the first factor `3` (cursor
left on the `+` token, position 4) and prints exactly
`Assign x = 3.000000`. -/
theorem c2_only_first_factor :
    Lex (asciiBytes "x = 3 + 4 * 2") =
      [{ kind := TokenKind.identifier, value := asciiBytes "x" },
       { kind := TokenKind.punctuation, value := asciiBytes "=" },
       { kind := TokenKind.number, value := asciiBytes "3" },
       { kind := TokenKind.punctuation, value := asciiBytes "+" },
       { kind := TokenKind.number, value := asciiBytes "4" },
       { kind := TokenKind.punctuation, value := asciiBytes "*" },
       { kind := TokenKind.number, value := asciiBytes "2" }] ∧
      (statement (parseInit (Lex (asciiBytes "x = 3 + 4 * 2")))).2 =
        [asciiBytes "Assign x = 3.000000"] ∧
      (statement (parseInit (Lex (asciiBytes "x = 3 + 4 * 2")))).1.current =
        { kind := TokenKind.punctuation, value := asciiBytes "+" } ∧
      (statement (parseInit (Lex (asciiBytes "x = 3 + 4 * 2")))).1.pos = 4 ∧
      parsePrints 1 (parseInit (Lex (asciiBytes "x = 3 + 4 * 2"))) =
        [asciiBytes "Assign x = 3.000000"] := by
  have hlex : Lex (asciiBytes "x = 3 + 4 * 2") =
      [{ kind := TokenKind.identifier, value := asciiBytes "x" },
       { kind := TokenKind.punctuation, value := asciiBytes "=" },
       { kind := TokenKind.number, value := asciiBytes "3" },
       { kind := TokenKind.punctuation, value := asciiBytes "+" },
       { kind := TokenKind.number, value := asciiBytes "4" },
       { kind := TokenKind.punctuation, value := asciiBytes "*" },
       { kind := TokenKind.number, value := asciiBytes "2" }] := by
    simp [Lex, asciiBytes, goIsSpace, goIsDigit, goIsLetter, identChar, numChar, symbolChar]
  refine ⟨hlex, ?_, ?_, ?_, ?_⟩ <;>
    rw [hlex] <;>
    simp [parsePrints, parseInit, NewParser, invalidToken, asciiBytes, goIsSpace,
      goIsDigit, goIsLetter, identChar, numChar, symbolChar, statement, assignmentStatement,
      advance, expression, term, factor, termLoop, exprLoop, errLine, fmtFixed6_three,
      parseFloatGo, digitsVal]

/-- C4: whenever the statement loop's current token is neither an
`identifier` nor the exhausted-input `TokenInvalid` sentinel, `statement`
reports `Unexpected token` and returns the state unchanged (the cursor does
not advance), so the `Parse` loop re-enters at the same position and never
terminates, whatever the fuel. -/
theorem c4_nonidentifier_loops_forever (st : PState)
    (h1 : st.current.kind ≠ TokenKind.identifier)
    (h2 : st.current.kind ≠ TokenKind.invalid) :
    statement st = (st, [errLine "Unexpected token"]) ∧
      ∀ fuel, parseRun fuel st = none := by
  have hstmt : statement st = (st, [errLine "Unexpected token"]) := by
    rw [statement, if_neg h1]
  refine ⟨hstmt, ?_⟩
  intro fuel
  induction fuel with
  | zero => rfl
  | succ f ih =>
    rw [parseRun, if_neg h2, hstmt]
    rw [ih]

/-- Witness for C4 at the tokens of `"5 = 3"` (leading token a `number`). -/
theorem c4_witness :
    statement (parseInit (Lex (asciiBytes "5 = 3"))) =
      (parseInit (Lex (asciiBytes "5 = 3")), [errLine "Unexpected token"]) ∧
      parseRun 5 (parseInit (Lex (asciiBytes "5 = 3"))) = none := by
  have h := c4_nonidentifier_loops_forever (parseInit (Lex (asciiBytes "5 = 3")))
    (by simp [parseInit, NewParser, invalidToken, Lex, asciiBytes, goIsSpace, goIsDigit,
      goIsLetter, numChar, symbolChar, advance])
    (by simp [parseInit, NewParser, invalidToken, Lex, asciiBytes, goIsSpace, goIsDigit,
      goIsLetter, numChar, symbolChar, advance])
  exact ⟨h.1, h.2 5⟩

/-- After `advance`, the current token is drawn from the sequence or is the
sentinel. -/
theorem advance_current (st : PState) :
    (advance st).current ∈ st.tokens ∨ (advance st).current.kind = TokenKind.invalid := by
  by_cases h : st.pos < st.tokens.length
  · rw [advance, dif_pos h]
    exact Or.inl (List.getElem_mem h)
  · rw [advance, dif_neg h]
    exact Or.inr rfl

/-- If the sequence holds no operator-kind token and the current token is
not operator-kind, the same holds after `factor`. -/
theorem factor_current_not_operator (st : PState)
    (hts : ∀ t ∈ st.tokens, t.kind ≠ TokenKind.operator)
    (hcur : st.current.kind ≠ TokenKind.operator) :
    (factor st).2.1.current.kind ≠ TokenKind.operator := by
  by_cases h1 : st.current.kind = TokenKind.number
  · have : (factor st).2.1 = advance st := by simp [factor, h1]
    rw [this]
    rcases advance_current st with hm | hi
    · exact hts _ hm
    · rw [hi]
      decide
  · by_cases h2 : st.current.kind = TokenKind.identifier
    · have : (factor st).2.1 = st := by simp [factor, h1, h2]
      rw [this]
      exact hcur
    · have : (factor st).2.1 = st := by simp [factor, h1, h2]
      rw [this]
      exact hcur

/-- Under the same conditions, `term` degenerates to its first `factor`. -/
theorem term_eq_factor (st : PState)
    (hts : ∀ t ∈ st.tokens, t.kind ≠ TokenKind.operator)
    (hcur : st.current.kind ≠ TokenKind.operator) :
    term st = factor st := by
  unfold term
  rw [termLoop_of_not_operator _ _ _ (factor_current_not_operator st hts hcur)]

/-- C5: the scanner only ever emits `number`, `identifier` and
`punctuation` tokens — never `TokenOperator` — so on any parser state over
scanner output (with a current token that is drawn from the sequence or is
otherwise not operator-kind) the operator loops of `expression` and `term`
are unreachable: `expression` returns exactly its first `term`, which
returns exactly its first `factor`. -/
theorem c5_no_operator_tokens (l : List Nat) (st : PState)
    (htok : st.tokens = Lex l)
    (hcur : st.current ∈ st.tokens ∨ st.current.kind ≠ TokenKind.operator) :
    (∀ t ∈ Lex l, t.kind = TokenKind.number ∨ t.kind = TokenKind.identifier ∨
      t.kind = TokenKind.punctuation) ∧
      expression st = term st ∧ term st = factor st := by
  have hkinds := lex_kinds l
  have hts : ∀ t ∈ st.tokens, t.kind ≠ TokenKind.operator := by
    rw [htok]
    intro t ht
    rcases hkinds t ht with h | h | h <;> rw [h] <;> decide
  have hco : st.current.kind ≠ TokenKind.operator := by
    rcases hcur with hm | hn
    · exact hts _ hm
    · exact hn
  have hterm : term st = factor st := term_eq_factor st hts hco
  refine ⟨hkinds, ?_, hterm⟩
  unfold expression
  rw [exprLoop_of_not_operator _ _ _
    (by rw [hterm]; exact factor_current_not_operator st hts hco)]

/-- Witness for C5 on the tokens of `"y = 5"`. -/
theorem c5_witness :
    expression (parseInit (Lex (asciiBytes "y = 5"))) =
      term (parseInit (Lex (asciiBytes "y = 5"))) ∧
      term (parseInit (Lex (asciiBytes "y = 5"))) =
        factor (parseInit (Lex (asciiBytes "y = 5"))) :=
  (c5_no_operator_tokens (asciiBytes "y = 5") (parseInit (Lex (asciiBytes "y = 5")))
    ((advance_tokens _).trans rfl)
    (Or.inr (by simp [parseInit, NewParser, invalidToken, advance, Lex, asciiBytes,
      goIsSpace, goIsDigit, goIsLetter, numChar, identChar, symbolChar]))).2

/-- C6: a current token of kind `number` whose text is not valid float
syntax (for the texts `readNumber` produces: more than one dot, or no
digit) makes `factor` return the value 0, advance past the token, and print
nothing — the parse-float error is silently discarded. -/
theorem c6_malformed_number_silent (st : PState)
    (h1 : st.current.kind = TokenKind.number)
    (h2 : ¬ (st.current.value.all numChar ∧ st.current.value.count 46 ≤ 1 ∧
      st.current.value.any goIsDigit)) :
    factor st = (0, advance st, []) := by
  unfold factor parseFloatGo
  rw [if_pos h1, if_neg h2]

/-- Witness for C6 at a `number` token with text `"1.2.3"`. -/
theorem c6_witness :
    factor { tokens := [], current := { kind := TokenKind.number, value := asciiBytes "1.2.3" }, pos := 0 } =
      (0, advance { tokens := [], current := { kind := TokenKind.number, value := asciiBytes "1.2.3" }, pos := 0 }, []) :=
  c6_malformed_number_silent _ rfl (by decide)

end LexGo
